import Mathlib

/-!
Verification of the EndstoneMC ARC-AI-Builder build-request subsystem.

This file shallowly embeds the command-transformation pipeline
(`CommandExecutor._clean_block_states`, `CommandExecutor._convert_relative_coords`),
the asynchronous execution engine (`CommandExecutor._execute_commands_thread`,
`execute_commands_async`, `stop_execution`) and the orchestrator's
confirmation / debit / record saga (`ARCAIBuilderPlugin._confirm_building`,
`_confirm_building_with_record`, `_save_building_record`,
`_deduct_money`, `_add_money`, `_get_player_money`) from the Python source,
and proves or refutes the specification's claims about them.

Commands are modelled as `List Char` (ASCII fragment of Python `str`);
machine behaviour that can raise (ledger calls, record creation, per-command
dispatch) is modelled with explicit `Option`/`Bool` oracles, and each
background-thread run is modelled as a pure function returning the final
state together with a trace of effects, each tagged with the execution
context (worker thread vs main-thread scheduler task) it runs on.
-/

namespace ARCAIBuilder

/-! ### Python string primitives

`str.split()` with no argument splits on runs of whitespace and discards
empty pieces; `str.isdigit()` on the ASCII fragment is "non-empty and all
chars 0-9"; `int(s)` accepts an optional single sign followed by digits
possibly separated by single underscores. -/

/-- Python whitespace characters (ASCII fragment of `str.split()` / `\s`). -/
def isPySpace (c : Char) : Bool :=
  c = ' ' || c = '\t' || c = '\n' || c = '\x0d' || c = '\x0b' || c = '\x0c'

/-- ASCII decimal digit (the `\d` class / `str.isdigit()` alphabet). -/
def isDigitCh (c : Char) : Bool :=
  c = '0' || c = '1' || c = '2' || c = '3' || c = '4' ||
  c = '5' || c = '6' || c = '7' || c = '8' || c = '9'

/-- One step of `str.split()`: fold from the right, carrying the token
fragment currently being built and the tokens already completed. -/
def splitStep (c : Char) (acc : List Char × List (List Char)) :
    List Char × List (List Char) :=
  if isPySpace c then
    match acc.1 with
    | [] => ([], acc.2)
    | t => ([], t :: acc.2)
  else
    (c :: acc.1, acc.2)

/-- Close out a split fold: prepend the final (leftmost) token fragment
when it is non-empty. -/
def finishSplit : List Char × List (List Char) → List (List Char)
  | ([], toks) => toks
  | (t, toks) => t :: toks

/-- Python `str.split()` (no argument): split on whitespace runs,
dropping empty tokens. -/
def pySplit (l : List Char) : List (List Char) :=
  finishSplit (l.foldr splitStep ([], []))

/-- Model of `" ".join(parts)`. -/
def pyJoin : List (List Char) → List Char
  | [] => []
  | [t] => t
  | t :: ts => t ++ ' ' :: pyJoin ts

/-- Python `str.isdigit()` restricted to ASCII: non-empty and all digits. -/
def pyIsdigit (l : List Char) : Bool :=
  !l.isEmpty && l.all isDigitCh

/-- Digit body of a Python integer literal after the first digit:
single underscores are allowed between digits only. -/
def pyIntTail : List Char → Bool
  | [] => true
  | '_' :: [] => false
  | '_' :: c :: cs => isDigitCh c && pyIntTail cs
  | c :: cs => isDigitCh c && pyIntTail cs

/-- Body of a Python integer literal (sign already removed):
a digit followed by digits with optional single interior underscores. -/
def pyIntBody : List Char → Bool
  | [] => false
  | c :: cs => isDigitCh c && pyIntTail cs

/-- Numeric value of a digit/underscore body. -/
def pyIntVal (l : List Char) : Nat :=
  (l.filter (· ≠ '_')).foldl (fun a c => a * 10 + (c.toNat - '0'.toNat)) 0

/-- Python `int(s)` on a whitespace-free token: optional single sign,
then the digit body; `none` models the `ValueError` exception. -/
def pyInt? : List Char → Option Int
  | '+' :: rest => if pyIntBody rest then some (pyIntVal rest) else none
  | '-' :: rest => if pyIntBody rest then some (-(pyIntVal rest : Int)) else none
  | l => if pyIntBody l then some (pyIntVal l) else none

/-- Decimal digits of a natural number, most significant first, computed
with structural fuel (`fuel > n` suffices, see `natChars`). -/
def natCharsAux : Nat → Nat → List Char
  | 0, _ => []
  | f + 1, n =>
    if n < 10 then [Nat.digitChar n]
    else natCharsAux f (n / 10) ++ [Nat.digitChar (n % 10)]

/-- Decimal representation of a natural number, as `str()` produces it. -/
def natChars (n : Nat) : List Char :=
  natCharsAux (n + 1) n

/-- Python `str()` of an integer. -/
def intChars (n : Int) : List Char :=
  if n < 0 then '-' :: natChars n.natAbs else natChars n.toNat

/-! ### `CommandExecutor._clean_block_states` (the sanitizer)

The Python function applies, in order,
`re.sub` with `\[facing=[^\]]+\]`, `\[type=[^\]]+\]`,
`\[waterlogged=[^\]]+\]`, `\[[^\]]*\]` (all replaced by the empty string),
then `\s+\d+$` (trailing data value), then `\s+\d+\s+` replaced by a single
space (interior data value), then collapses `\s+` to one space and strips.
Each `re.sub` is embedded as a left-to-right scanner that, at each
position, tries the (greedy, backtracking-free for these patterns) match
and on success emits the replacement and resumes after the match, exactly
as `re.sub` does.  None of the patterns can match the empty string, so the
scanner consumes at least one character per match and the fuel
`length + 1` used below is never exhausted.  The function's
`try/except` fail-soft wrapper never fires because none of these total
functions can fail. -/

/-- Generic `re.sub(pattern, repl, s)` scanner: `tryM` returns the rest of
the input after a match at the current position (consuming at least one
character for every pattern used here). -/
def reSub (tryM : List Char → Option (List Char)) (repl : List Char) :
    Nat → List Char → List Char
  | 0, l => l
  | _ + 1, [] => []
  | fuel + 1, c :: cs =>
    match tryM (c :: cs) with
    | some rest => repl ++ reSub tryM repl fuel rest
    | none => c :: reSub tryM repl fuel cs

/-- Model of `re.sub` over the whole string, with adequate fuel. -/
def reSubAll (tryM : List Char → Option (List Char)) (repl : List Char)
    (l : List Char) : List Char :=
  reSub tryM repl (l.length + 1) l

/-- Matcher for `\[<key>[^\]]+\]` (with `key` e.g. `facing=`): an opening
bracket, the literal key, at least one non-`]` character, then `]`. -/
def matchBracketKey (key : List Char) (l : List Char) : Option (List Char) :=
  match l with
  | '[' :: rest =>
    if key.isPrefixOf rest then
      let after := rest.drop key.length
      let body := after.takeWhile (· ≠ ']')
      match body, after.dropWhile (· ≠ ']') with
      | _ :: _, ']' :: r => some r
      | _, _ => none
    else none
  | _ => none

/-- Matcher for `\[[^\]]*\]`: a bracket group with no nested `]`. -/
def matchAnyBracket (l : List Char) : Option (List Char) :=
  match l with
  | '[' :: rest =>
    match rest.dropWhile (· ≠ ']') with
    | ']' :: r => some r
    | _ => none
  | _ => none

/-- Matcher for `\s+\d+\s+` (interior data value): a whitespace run, a
digit run, and a whitespace run, each non-empty and maximal (the pattern
needs no backtracking because the three character classes are disjoint). -/
def matchWsDigitsWs (l : List Char) : Option (List Char) :=
  let s1 := l.takeWhile isPySpace
  let l1 := l.dropWhile isPySpace
  let d := l1.takeWhile isDigitCh
  let l2 := l1.dropWhile isDigitCh
  let s2 := l2.takeWhile isPySpace
  let r := l2.dropWhile isPySpace
  if !s1.isEmpty && !d.isEmpty && !s2.isEmpty then some r else none

/-- Model of `re.sub(r"\s+\d+$", "", s)`: remove a trailing digit-only run together
with the whitespace run immediately before it, when both are present. -/
def subTrailingDigits (l : List Char) : List Char :=
  let r := l.reverse
  let ds := r.takeWhile isDigitCh
  let r1 := r.dropWhile isDigitCh
  let ws := r1.takeWhile isPySpace
  if !ds.isEmpty && !ws.isEmpty then (r1.dropWhile isPySpace).reverse else l

/-- Model of `re.sub(r"\s+", " ", s).strip()`, which coincides with
`" ".join(s.split())`. -/
def collapseWs (l : List Char) : List Char :=
  pyJoin (pySplit l)

/-- Model of `CommandExecutor._clean_block_states`, on char lists. -/
def cleanCore (l : List Char) : List Char :=
  let l1 := reSubAll (matchBracketKey "facing=".toList) [] l
  let l2 := reSubAll (matchBracketKey "type=".toList) [] l1
  let l3 := reSubAll (matchBracketKey "waterlogged=".toList) [] l2
  let l4 := reSubAll matchAnyBracket [] l3
  let l5 := subTrailingDigits l4
  let l6 := reSubAll matchWsDigitsWs [' '] l5
  collapseWs l6

/-- Model of `CommandExecutor._clean_block_states` on strings. -/
def clean_block_states (s : String) : String :=
  ⟨cleanCore s.toList⟩

/-! ### `CommandExecutor._convert_relative_coords` (coordinate resolution)

The Python function splits on whitespace, walks the tokens left to right
with a counter `coord_count`; a token starting with `~` is replaced by the
origin component selected by `coord_count % 3` plus the parsed offset
(one leading `+` stripped before `int()`), a bare-integer token
(`isdigit()` or `-` followed by `isdigit()`) only advances the counter,
and any other token passes through.  Any `int()` failure aborts the whole
function, which then returns the input unchanged. -/

/-- The origin component selected by the coordinate counter, `c % 3`. -/
def axisVal (o : Int × Int × Int) (c : Nat) : Int :=
  if c % 3 = 0 then o.1 else if c % 3 = 1 then o.2.1 else o.2.2

/-- A token counted as a bare absolute coordinate:
`part.isdigit() or (part.startswith('-') and part[1:].isdigit())`. -/
def isBareIntTok (t : List Char) : Bool :=
  pyIsdigit t ||
    (match t with
     | '-' :: r => pyIsdigit r
     | _ => false)

/-- Offset parsing for a `~`-token: strip one leading `+`
(`offset_str.startswith('+')`), then Python `int()`; an empty offset is 0
(unreachable, kept for faithfulness). -/
def parseTilde? (rest : List Char) : Option Int :=
  match rest with
  | [] => some 0
  | '+' :: r => pyInt? r
  | r => pyInt? r

/-- Process one token: returns the rewritten token and the new counter,
or `none` for the `ValueError` that aborts the whole conversion. -/
def resolveTok (o : Int × Int × Int) (c : Nat) (t : List Char) :
    Option (List Char × Nat) :=
  match t with
  | '~' :: rest =>
    if rest.isEmpty then some (intChars (axisVal o c), c + 1)
    else
      match parseTilde? rest with
      | some off => some (intChars (axisVal o c + off), c + 1)
      | none => none
  | _ =>
    if isBareIntTok t then some (t, c + 1) else some (t, c)

/-- Process the token list left to right with the coordinate counter. -/
def resolveToks (o : Int × Int × Int) : Nat → List (List Char) →
    Option (List (List Char))
  | _, [] => some []
  | c, t :: ts =>
    match resolveTok o c t with
    | none => none
    | some (t', c') => (resolveToks o c' ts).map (t' :: ·)

/-- Model of `CommandExecutor._convert_relative_coords`, on char lists: on any
parse failure the original command is returned unchanged (fail-soft). -/
def convertCore (cmd : List Char) (o : Int × Int × Int) : List Char :=
  match resolveToks o 0 (pySplit cmd) with
  | some ts => pyJoin ts
  | none => cmd

/-- Model of `CommandExecutor._convert_relative_coords` on strings. -/
def convert_relative_coords (s : String) (o : Int × Int × Int) : String :=
  ⟨convertCore s.toList o⟩

/-! ### The execution engine (`CommandExecutor`)

`_execute_commands_thread` runs on a dedicated daemon thread.  It is
embedded as a pure function from its inputs to the final executor state
plus a trace of effects; each effect carries the context it runs on:
`.worker` for code executed on the thread itself (the flag writes and the
`server.dispatch_command` calls) and `.main` for the callbacks handed to
`server.scheduler.run_task(self, cb, delay=0)` (the progress and
completion events).  Per-command `dispatch_command` exceptions are
modelled by the oracle `dispatchOk : Nat → Bool`; an external
`stop_execution()` that the loop's `if not self.is_running: break` check
observes is modelled by `cancelAt : Option Nat`, the first loop index at
which the flag reads false.  The model serialises each scheduled callback
at its scheduling point, so event payloads carry the values of
`current_progress` / `total_commands` at scheduling time (one admissible
interleaving of the scheduler).  The inter-command `time.sleep` has no
modelled effect.  The `on_progress` / `on_complete` callbacks and
`plugin_self` are taken as wired (they are, in `on_enable`). -/

/-- Execution context of one effect: the background worker thread, or a
main-thread scheduler task. -/
inductive Ctx where
  | worker
  | main
deriving DecidableEq, Repr

/-- Observable effects of the subsystem. -/
inductive Act where
  | setRunning (b : Bool)
  | dispatch (cmd : List Char)
  | progressEv (player : String) (done total : Nat)
  | completeEv (player : String) (done total : Nat)
  | aiCall
  | storeRequest (player : String)
  | notifyError (player : String)
  | ledgerDebit (amount : Int)
  | ledgerCredit (amount : Int)
  | recordCreate (id : Nat)
deriving DecidableEq, Repr

/-- The executor's shared fields (`is_running`, `current_progress`,
`total_commands`). -/
structure ExecState where
  is_running : Bool
  current_progress : Nat
  total_commands : Nat
deriving DecidableEq, Repr

/-- Whether the `if not self.is_running: break` check at loop index `i`
observes the flag as false (an external `stop_execution()` happened). -/
def stoppedAt (cancelAt : Option Nat) (i : Nat) : Bool :=
  match cancelAt with
  | some k => decide (k ≤ i)
  | none => false

/-- The `for i, command in enumerate(commands)` loop: takes the current
index and `current_progress`, returns the final `current_progress` and the
trace.  On a successful dispatch `current_progress` becomes `i + 1` and a
progress event is scheduled; a dispatch exception leaves the counter
untouched and schedules nothing (`except: continue`). -/
def execLoop (player : String) (o : Int × Int × Int) (total : Nat)
    (dispatchOk : Nat → Bool) (cancelAt : Option Nat) :
    Nat → List (List Char) → Nat → Nat × List (Ctx × Act)
  | _, [], p => (p, [])
  | i, cmd :: rest, p =>
    if stoppedAt cancelAt i then (p, [])
    else
      let absCmd := convertCore (cleanCore cmd) o
      if dispatchOk i then
        let r := execLoop player o total dispatchOk cancelAt (i + 1) rest (i + 1)
        (r.1, (Ctx.worker, Act.dispatch absCmd)
              :: (Ctx.main, Act.progressEv player (i + 1) total) :: r.2)
      else
        let r := execLoop player o total dispatchOk cancelAt (i + 1) rest p
        (r.1, (Ctx.worker, Act.dispatch absCmd) :: r.2)

/-- Model of `_execute_commands_thread`: sets `is_running` before anything else,
fails out (after the flag write) when `center_pos is None`, otherwise runs
the loop and schedules the completion callback — note the completion block
runs after the loop whether it was exhausted or exited via `break` — and
in the `finally` block clears `is_running`. -/
def threadRun (cmds : List (List Char)) (player : String)
    (center : Option (Int × Int × Int)) (dispatchOk : Nat → Bool)
    (cancelAt : Option Nat) : ExecState × List (Ctx × Act) :=
  let total := cmds.length
  match center with
  | none =>
    ({ is_running := false, current_progress := 0, total_commands := total },
     [(Ctx.worker, Act.setRunning true), (Ctx.worker, Act.setRunning false)])
  | some o =>
    let r := execLoop player o total dispatchOk cancelAt 0 cmds 0
    ({ is_running := false, current_progress := r.1, total_commands := total },
     (Ctx.worker, Act.setRunning true)
       :: r.2 ++ [(Ctx.main, Act.completeEv player r.1 total),
                  (Ctx.worker, Act.setRunning false)])

/-- Model of `execute_commands_async`: the single-flight guard — when the flag is
observed set, return without starting a thread, queuing or erroring;
otherwise run (the model sequentialises the spawned thread). -/
def execute_commands_async (cmds : List (List Char)) (player : String)
    (center : Option (Int × Int × Int)) (dispatchOk : Nat → Bool)
    (cancelAt : Option Nat) (s : ExecState) : ExecState × List (Ctx × Act) :=
  if s.is_running then (s, [])
  else threadRun cmds player center dispatchOk cancelAt

/-- Model of `stop_execution`: flips the flag off. -/
def stop_execution (s : ExecState) : ExecState :=
  { s with is_running := false }

/-- Model of `_start_building_generation`'s `generate_in_thread` worker, at effect
granularity: the OpenAI call happens on the worker; the `update_ui`
closure — which writes `self.player_requests[player.name]` on success and
only messages the player on failure — is handed to
`server.scheduler.run_task(self, update_ui, delay=0)`, i.e. the main
context. -/
def generationThreadTrace (player : String) (success : Bool) :
    List (Ctx × Act) :=
  (Ctx.worker, Act.aiCall)
    :: [(Ctx.main, if success then Act.storeRequest player else Act.notifyError player)]

/-! Trace observation helpers. -/

/-- Payloads (`done` values) of the progress events of a trace, in order. -/
def progressVals (tr : List (Ctx × Act)) : List Nat :=
  tr.filterMap fun e =>
    match e.2 with
    | Act.progressEv _ d _ => some d
    | _ => none

/-- Payloads (`done` values) of the completion events of a trace, in order. -/
def completeVals (tr : List (Ctx × Act)) : List Nat :=
  tr.filterMap fun e =>
    match e.2 with
    | Act.completeEv _ d _ => some d
    | _ => none

/-- Whether an effect is a `dispatch_command` call. -/
def isDispatch : Act → Bool
  | Act.dispatch _ => true
  | _ => false

/-- Number of `dispatch_command` calls in a trace. -/
def dispatchCount (tr : List (Ctx × Act)) : Nat :=
  (tr.filter fun e => isDispatch e.2).length

/-- The context discipline of the executor thread: world dispatch and the
flag writes happen on the worker; progress/completion delivery happens on
the main context; and no ledger, record-store or request-tracker mutation
is ever emitted by the thread. -/
def execTagOk : Ctx × Act → Bool
  | (Ctx.worker, Act.dispatch _) => true
  | (Ctx.worker, Act.setRunning _) => true
  | (Ctx.main, Act.progressEv ..) => true
  | (Ctx.main, Act.completeEv ..) => true
  | _ => false

/-- The context discipline of the generation worker: the AI call on the
worker, any store write or player notification on the main context. -/
def genTagOk : Ctx × Act → Bool
  | (Ctx.worker, Act.aiCall) => true
  | (Ctx.main, Act.storeRequest _) => true
  | (Ctx.main, Act.notifyError _) => true
  | _ => false

/-- Value of `current_progress` after attempting commands `i, i+1, …, i+m-1`
starting from value `p`: set to `j + 1` at each successful index `j`. -/
def progressFrom (d : Nat → Bool) : Nat → Nat → Nat → Nat
  | _, 0, p => p
  | i, m + 1, p => progressFrom d (i + 1) m (if d i then i + 1 else p)

/-! ### The orchestrator (`ARCAIBuilderPlugin` confirmation saga)

The debit / record-create flows of `_confirm_building` and
`_confirm_building_with_record` are embedded over an explicit state for a
single fixed requester.  The economy plugin's
`api_change_player_money` is a plain balance update; its absence (or a
non-positive amount) makes `_deduct_money` / `_add_money` return `False`
with the state unchanged.  `_save_building_record` catches every internal
exception and returns `None`; that failure mode is modelled by the oracle
`saveOk` (its typed-field validations cannot fail in the model).
Timestamps, UUIDs and log lines are not modelled. -/

/-- One tracked request position
(`self.request_positions[request_id]`). -/
structure ReqPos where
  center_pos : Int × Int × Int
  dimension : String
  size : Int
  requirements : String
  player_name : String
deriving DecidableEq, Repr

/-- One cached generation result
(`self.player_requests[player.name]`). -/
structure PlayerRequest where
  center_pos : Int × Int × Int
  dimension : String
  size : Int
  requirements : String
  commands : List (List Char)
  estimated_cost : Int
deriving DecidableEq, Repr

/-- One build record (`self.building_records[building_id]`), without the
timestamp/uuid bookkeeping fields. -/
structure BuildingRecord where
  id : Nat
  player_name : String
  center : Int × Int × Int
  dimension : String
  size : Int
  requirements : String
  estimated_cost : Int
  actual_cost : Int
  commands : List (List Char)
  status : String
deriving DecidableEq, Repr

/-- The record argument of `_confirm_building_with_record`: a dict whose
`center_x/center_y/center_z` keys may be absent (`coords = none`). -/
structure RecordInput where
  id : Nat
  coords : Option (Int × Int × Int)
  dimension : String
  size : Int
  requirements : String
deriving DecidableEq, Repr

/-- Orchestrator state for one fixed requester. -/
structure OrchState where
  hasEconomy : Bool
  balance : Int
  request_positions : List (Nat × ReqPos)
  player_request : Option PlayerRequest
  building_records : List (Nat × BuildingRecord)
  building_coordinates : List (Nat × (Int × Int × Int))
  next_building_id : Nat
deriving DecidableEq, Repr

/-- Model of `_get_player_money`: 0 without an economy plugin. -/
def get_player_money (s : OrchState) : Int :=
  if s.hasEconomy then s.balance else 0

/-- Model of `_deduct_money`: `False` (state unchanged) without an economy plugin
or for a non-positive amount, else subtract and `True`. -/
def deduct_money (amount : Int) (s : OrchState) : Bool × OrchState :=
  if !s.hasEconomy then (false, s)
  else if amount ≤ 0 then (false, s)
  else (true, { s with balance := s.balance - amount })

/-- Model of `_add_money`: `False` without an economy plugin or for a non-positive
amount, else add and `True`. -/
def add_money (amount : Int) (s : OrchState) : Bool × OrchState :=
  if !s.hasEconomy then (false, s)
  else if amount ≤ 0 then (false, s)
  else (true, { s with balance := s.balance + amount })

/-- Model of `_save_building_record`: allocate the next id, store a record with
status `building`, cache the coordinates, return the id — or `None`
(state unchanged) when an internal exception fires (`saveOk = false`). -/
def save_building_record (player : String) (req : PlayerRequest)
    (saveOk : Bool) (s : OrchState) : Option Nat × OrchState :=
  if saveOk then
    let bid := s.next_building_id
    let newRec : BuildingRecord :=
      { id := bid, player_name := player, center := req.center_pos,
        dimension := req.dimension, size := req.size,
        requirements := req.requirements,
        estimated_cost := req.estimated_cost,
        actual_cost := req.estimated_cost,
        commands := req.commands, status := "building" }
    (some bid,
     { s with building_records := (bid, newRec) :: s.building_records,
              building_coordinates := (bid, req.center_pos) :: s.building_coordinates,
              next_building_id := bid + 1 })
  else (none, s)

/-- Terminal outcome (the one user-visible message) of a confirmation
attempt. -/
inductive ConfirmOutcome where
  | insufficientFunds
  | debitFailed
  | positionLost
  | requestExpired
  | saveFailedRefunded
  | coordsMissingRefunded
  | started (building_id : Nat)
deriving DecidableEq, Repr

/-- Model of `_confirm_building`.  With `commands` and `estimated_cost` provided
(the fresh-confirmation path): balance check, debit, then the
`request_id and request_id in self.request_positions` lookup — on success
the record is built inline with status `building` and the tracked request
is consumed; on a missing id the function returns "建筑位置信息丢失"
without crediting the debit back.  Without `commands`/`cost` (the cached
path): re-read `player_requests`, balance check, debit,
`_save_building_record`, refunding the debit when the save fails. -/
def confirm_building (player : String) (commandsArg : Option (List (List Char)))
    (costArg : Option Int) (requestId : Option Nat) (saveOk : Bool)
    (s : OrchState) : OrchState × ConfirmOutcome :=
  match commandsArg, costArg with
  | some commands, some cost =>
    if get_player_money s < cost then (s, ConfirmOutcome.insufficientFunds)
    else
      match deduct_money cost s with
      | (false, s1) => (s1, ConfirmOutcome.debitFailed)
      | (true, s1) =>
        match requestId.bind fun rid =>
            (s1.request_positions.lookup rid).map fun rp => (rid, rp) with
        | some (rid, rp) =>
          let bid := s1.next_building_id
          let newRec : BuildingRecord :=
            { id := bid, player_name := player, center := rp.center_pos,
              dimension := rp.dimension, size := rp.size,
              requirements := rp.requirements, estimated_cost := cost,
              actual_cost := cost, commands := commands, status := "building" }
          ({ s1 with building_records := (bid, newRec) :: s1.building_records,
                     next_building_id := bid + 1,
                     request_positions :=
                       s1.request_positions.filter (fun e => e.1 ≠ rid) },
           ConfirmOutcome.started bid)
        | none => (s1, ConfirmOutcome.positionLost)
  | _, _ =>
    match s.player_request with
    | none => (s, ConfirmOutcome.requestExpired)
    | some req =>
      if get_player_money s < req.estimated_cost then
        (s, ConfirmOutcome.insufficientFunds)
      else
        match deduct_money req.estimated_cost s with
        | (false, s1) => (s1, ConfirmOutcome.debitFailed)
        | (true, s1) =>
          match save_building_record player req saveOk s1 with
          | (none, s2) =>
            ((add_money req.estimated_cost s2).2, ConfirmOutcome.saveFailedRefunded)
          | (some bid, s2) =>
            ({ s2 with player_request := none }, ConfirmOutcome.started bid)

/-- Model of `_confirm_building_with_record` (the re-confirmation path): balance
check, debit, validate the original record's coordinate keys (refunding
the debit when they are missing), `_save_building_record` (refunding when
it fails), then delete the original `pending` record. -/
def confirm_building_with_record (player : String)
    (commands : List (List Char)) (cost : Int) (record : Option RecordInput)
    (saveOk : Bool) (s : OrchState) : OrchState × ConfirmOutcome :=
  if get_player_money s < cost then (s, ConfirmOutcome.insufficientFunds)
  else
    match deduct_money cost s with
    | (false, s1) => (s1, ConfirmOutcome.debitFailed)
    | (true, s1) =>
      match record with
      | none => ((add_money cost s1).2, ConfirmOutcome.coordsMissingRefunded)
      | some r =>
        match r.coords with
        | none => ((add_money cost s1).2, ConfirmOutcome.coordsMissingRefunded)
        | some cp =>
          let req : PlayerRequest :=
            { center_pos := cp, dimension := r.dimension, size := r.size,
              requirements := r.requirements, commands := commands,
              estimated_cost := cost }
          match save_building_record player req saveOk s1 with
          | (none, s2) =>
            ((add_money cost s2).2, ConfirmOutcome.saveFailedRefunded)
          | (some bid, s2) =>
            ({ s2 with building_records :=
                 s2.building_records.filter (fun e => e.1 ≠ r.id) },
             ConfirmOutcome.started bid)

/-! ### Derived predicates used by the statements -/

/-- A well-formed split token: non-empty and whitespace-free (every token
produced by `str.split()` is of this shape). -/
def goodTok (t : List Char) : Prop :=
  t ≠ [] ∧ ∀ c ∈ t, isPySpace c = false

/-- A token as it appears after a successful resolution pass: well formed
and no longer starting with `~`. -/
def resolvedTok (t : List Char) : Prop :=
  goodTok t ∧ t.head? ≠ some '~'

/-- One plus the largest index of a successfully dispatched command
(0 when none succeeded): the "1-based index of the most recently
successfully dispatched command". -/
def lastSuccessDone (d : Nat → Bool) (n : Nat) : Nat :=
  ((List.range n).filter d).foldl (fun _ j => j + 1) 0

end ARCAIBuilder

namespace ARCAIBuilder

/-! ## Lemmas: characters, split/join, resolution -/

theorem isDigitCh_not_space {c : Char} (h : isDigitCh c = true) :
    isPySpace c = false := by
  simp only [isDigitCh, Bool.or_eq_true, decide_eq_true_eq] at h
  rcases h with ((((((((h | h) | h) | h) | h) | h) | h) | h) | h) | h <;> subst h <;> rfl

theorem isDigitCh_ne_tilde {c : Char} (h : isDigitCh c = true) : c ≠ '~' := by
  simp only [isDigitCh, Bool.or_eq_true, decide_eq_true_eq] at h
  rcases h with ((((((((h | h) | h) | h) | h) | h) | h) | h) | h) | h <;> subst h <;> decide

theorem digitChar_isDigit : ∀ m : Nat, m < 10 → isDigitCh (Nat.digitChar m) = true := by
  decide

theorem natCharsAux_digits :
    ∀ fuel n, n < fuel →
      natCharsAux fuel n ≠ [] ∧ ∀ c ∈ natCharsAux fuel n, isDigitCh c = true := by
  intro fuel
  induction fuel with
  | zero => intro n h; exact absurd h (Nat.not_lt_zero n)
  | succ f ih =>
    intro n h
    by_cases h10 : n < 10
    · simp only [natCharsAux, if_pos h10]
      refine ⟨by simp, ?_⟩
      intro c hc
      simp only [List.mem_singleton] at hc
      subst hc
      exact digitChar_isDigit n h10
    · simp only [natCharsAux, if_neg h10]
      have hn : 0 < n := by omega
      have hdiv : n / 10 < f := by
        have h1 : n / 10 < n := Nat.div_lt_self hn (by norm_num)
        omega
      obtain ⟨hne, hmem⟩ := ih (n / 10) hdiv
      refine ⟨by simp [hne], ?_⟩
      intro c hc
      rcases List.mem_append.mp hc with hc | hc
      · exact hmem c hc
      · simp only [List.mem_singleton] at hc
        subst hc
        exact digitChar_isDigit _ (Nat.mod_lt _ (by norm_num))

theorem natChars_digits (n : Nat) :
    natChars n ≠ [] ∧ ∀ c ∈ natChars n, isDigitCh c = true :=
  natCharsAux_digits (n + 1) n (Nat.lt_succ_self n)

theorem intChars_resolvedTok (n : Int) : resolvedTok (intChars n) := by
  have hchars : intChars n ≠ [] ∧ ∀ c ∈ intChars n, isDigitCh c = true ∨ c = '-' := by
    unfold intChars
    split
    · obtain ⟨hne, hd⟩ := natChars_digits n.natAbs
      refine ⟨by simp, ?_⟩
      intro c hc
      rcases List.mem_cons.mp hc with hc | hc
      · exact Or.inr hc
      · exact Or.inl (hd c hc)
    · obtain ⟨hne, hd⟩ := natChars_digits n.toNat
      exact ⟨hne, fun c hc => Or.inl (hd c hc)⟩
  obtain ⟨hne, hmem⟩ := hchars
  refine ⟨⟨hne, ?_⟩, ?_⟩
  · intro c hc
    rcases hmem c hc with hd | hd
    · exact isDigitCh_not_space hd
    · subst hd; rfl
  · cases hh : intChars n with
    | nil => exact absurd hh hne
    | cons a t =>
      simp only [List.head?_cons, ne_eq, Option.some.injEq]
      have ha : a ∈ intChars n := by rw [hh]; exact List.mem_cons_self a t
      rcases hmem a ha with hd | hd
      · exact isDigitCh_ne_tilde hd
      · subst hd; decide

theorem foldr_splitStep_nospace :
    ∀ (t : List Char), (∀ c ∈ t, isPySpace c = false) →
      ∀ acc : List Char × List (List Char),
        t.foldr splitStep acc = (t ++ acc.1, acc.2) := by
  intro t
  induction t with
  | nil => intro _ acc; simp
  | cons c t ih =>
    intro h acc
    have hc : isPySpace c = false := h c (List.mem_cons_self c t)
    have ht : ∀ x ∈ t, isPySpace x = false := fun x hx => h x (List.mem_cons_of_mem c hx)
    simp only [List.foldr_cons, ih ht acc, splitStep, hc]
    simp

theorem splitStep_space {c : Char} (h : isPySpace c = true)
    (acc : List Char × List (List Char)) :
    splitStep c acc = ([], finishSplit acc) := by
  obtain ⟨cur, toks⟩ := acc
  cases cur <;> simp [splitStep, finishSplit, h]

theorem finishSplit_ne {t : List Char} {toks : List (List Char)} (h : t ≠ []) :
    finishSplit (t, toks) = t :: toks := by
  cases t with
  | nil => exact absurd rfl h
  | cons a t => rfl

theorem pySplit_pyJoin :
    ∀ ts : List (List Char), (∀ t ∈ ts, goodTok t) → pySplit (pyJoin ts) = ts := by
  intro ts
  induction ts with
  | nil => intro _; rfl
  | cons t ts ih =>
    intro h
    have hg : goodTok t := h t (List.mem_cons_self t ts)
    have hts : ∀ u ∈ ts, goodTok u := fun u hu => h u (List.mem_cons_of_mem t hu)
    cases ts with
    | nil =>
      show finishSplit (t.foldr splitStep ([], [])) = [t]
      rw [foldr_splitStep_nospace t hg.2 ([], [])]
      simp only [List.append_nil]
      exact finishSplit_ne hg.1
    | cons t2 ts2 =>
      show finishSplit ((t ++ ' ' :: pyJoin (t2 :: ts2)).foldr splitStep ([], [])) = _
      rw [List.foldr_append]
      have hinner :
          (' ' :: pyJoin (t2 :: ts2)).foldr splitStep ([], []) = ([], t2 :: ts2) := by
        simp only [List.foldr_cons]
        rw [splitStep_space (by rfl)]
        rw [show finishSplit ((pyJoin (t2 :: ts2)).foldr splitStep ([], [])) = t2 :: ts2
              from ih hts]
      rw [hinner, foldr_splitStep_nospace t hg.2 ([], t2 :: ts2)]
      simp only [List.append_nil]
      exact finishSplit_ne hg.1

theorem mem_finishSplit {t : List Char} {a : List Char × List (List Char)}
    (h : t ∈ finishSplit a) : (t = a.1 ∧ a.1 ≠ []) ∨ t ∈ a.2 := by
  obtain ⟨cur, toks⟩ := a
  cases cur with
  | nil => exact Or.inr h
  | cons c cs =>
    rcases List.mem_cons.mp h with h | h
    · exact Or.inl ⟨h, by simp⟩
    · exact Or.inr h

theorem foldr_splitStep_inv :
    ∀ l : List Char,
      (∀ c ∈ (l.foldr splitStep ([], [])).1, isPySpace c = false) ∧
      (∀ t ∈ (l.foldr splitStep ([], [])).2, goodTok t) := by
  intro l
  induction l with
  | nil => exact ⟨by simp, by simp⟩
  | cons c l ih =>
    obtain ⟨ih1, ih2⟩ := ih
    by_cases hc : isPySpace c = true
    · simp only [List.foldr_cons, splitStep_space hc]
      refine ⟨by simp, ?_⟩
      intro t ht
      rcases mem_finishSplit ht with ⟨rfl, hne⟩ | ht
      · exact ⟨hne, ih1⟩
      · exact ih2 t ht
    · have hc' : isPySpace c = false := by
        cases hcc : isPySpace c
        · rfl
        · exact absurd hcc hc
      simp only [List.foldr_cons, splitStep, hc']
      refine ⟨?_, ih2⟩
      intro x hx
      rcases List.mem_cons.mp hx with hx | hx
      · subst hx; exact hc'
      · exact ih1 x hx

theorem pySplit_good : ∀ l : List Char, ∀ t ∈ pySplit l, goodTok t := by
  intro l t ht
  obtain ⟨h1, h2⟩ := foldr_splitStep_inv l
  rcases mem_finishSplit ht with ⟨rfl, hne⟩ | ht
  · exact ⟨hne, h1⟩
  · exact h2 t ht

theorem resolveTok_notilde {o : Int × Int × Int} {c : Nat} {t : List Char}
    (h : t.head? ≠ some '~') :
    resolveTok o c t = some (t, c + 1) ∨ resolveTok o c t = some (t, c) := by
  cases t with
  | nil => exact Or.inr rfl
  | cons a t =>
    by_cases ha : a = '~'
    · subst ha; simp at h
    · have harm : resolveTok o c (a :: t) =
          (if isBareIntTok (a :: t) then some (a :: t, c + 1) else some (a :: t, c)) := by
        unfold resolveTok
        split
        · rename_i heq
          exact absurd (List.cons.inj heq).1 ha
        · rfl
      rw [harm]
      split
      · exact Or.inl rfl
      · exact Or.inr rfl

theorem resolveTok_out_single {o : Int × Int × Int} {c : Nat} {t t1 : List Char}
    {c1 : Nat} (hg : goodTok t) (h : resolveTok o c t = some (t1, c1)) :
    resolvedTok t1 := by
  unfold resolveTok at h
  split at h
  · -- the `'~' :: rest` arm always outputs an `intChars` token (or fails)
    split at h
    · simp only [Option.some.injEq, Prod.mk.injEq] at h
      obtain ⟨h1, _⟩ := h
      subst h1
      exact intChars_resolvedTok _
    · split at h
      · simp only [Option.some.injEq, Prod.mk.injEq] at h
        obtain ⟨h1, _⟩ := h
        subst h1
        exact intChars_resolvedTok _
      · exact absurd h (by simp)
  · -- the fall-through arm passes the token through unchanged
    rename_i hne
    have ht1 : t = t1 := by
      split at h <;> simp only [Option.some.injEq, Prod.mk.injEq] at h <;> exact h.1
    subst ht1
    refine ⟨hg, ?_⟩
    cases ht : t with
    | nil => exact absurd ht hg.1
    | cons a u =>
      simp only [List.head?_cons, ne_eq, Option.some.injEq]
      intro hcontra
      exact hne u (by rw [ht, hcontra])

theorem resolveToks_fixed {o : Int × Int × Int} :
    ∀ ts : List (List Char), (∀ t ∈ ts, t.head? ≠ some '~') →
      ∀ c, resolveToks o c ts = some ts := by
  intro ts
  induction ts with
  | nil => intro _ _; rfl
  | cons t ts ih =>
    intro h c
    have hh := h t (List.mem_cons_self t ts)
    have hts : ∀ u ∈ ts, u.head? ≠ some '~' := fun u hu => h u (List.mem_cons_of_mem t hu)
    rcases resolveTok_notilde (o := o) (c := c) hh with he | he <;>
      simp [resolveToks, he, ih hts]

theorem resolveToks_out {o : Int × Int × Int} :
    ∀ (ts : List (List Char)) (c : Nat) (ts' : List (List Char)),
      (∀ t ∈ ts, goodTok t) → resolveToks o c ts = some ts' →
      ∀ t' ∈ ts', resolvedTok t' := by
  intro ts
  induction ts with
  | nil =>
    intro c ts' _ h
    simp only [resolveToks, Option.some.injEq] at h
    subst h
    intro t' ht'
    exact absurd ht' (List.not_mem_nil t')
  | cons t ts ih =>
    intro c ts' hg h
    cases h1 : resolveTok o c t with
    | none => simp [resolveToks, h1] at h
    | some tc =>
      obtain ⟨t1, c1⟩ := tc
      simp only [resolveToks, h1] at h
      cases h2 : resolveToks o c1 ts with
      | none => rw [h2] at h; exact absurd h (by simp)
      | some ts2 =>
        rw [h2] at h
        simp only [Option.map_some', Option.some.injEq] at h
        subst h
        intro t' ht'
        rcases List.mem_cons.mp ht' with ht' | ht'
        · subst ht'
          exact resolveTok_out_single (hg t (List.mem_cons_self t ts)) h1
        · exact ih c1 ts2 (fun u hu => hg u (List.mem_cons_of_mem t hu)) h2 t' ht'

theorem convertCore_resolved {o : Int × Int × Int} {ts : List (List Char)}
    (h : ∀ t ∈ ts, resolvedTok t) : convertCore (pyJoin ts) o = pyJoin ts := by
  unfold convertCore
  rw [pySplit_pyJoin ts (fun t ht => (h t ht).1),
      resolveToks_fixed ts (fun t ht => (h t ht).2) 0]

theorem convertCore_idem (cmd : List Char) (o : Int × Int × Int) :
    convertCore (convertCore cmd o) o = convertCore cmd o := by
  cases h : resolveToks o 0 (pySplit cmd) with
  | none =>
    have hc : convertCore cmd o = cmd := by unfold convertCore; rw [h]
    rw [hc]
    exact hc
  | some ts =>
    have hc : convertCore cmd o = pyJoin ts := by unfold convertCore; rw [h]
    have hres : ∀ t ∈ ts, resolvedTok t :=
      resolveToks_out (pySplit cmd) 0 ts (pySplit_good cmd) h
    rw [hc, convertCore_resolved hres]

/-! ## Lemmas: the execution-engine loop -/

theorem stoppedAt_none (i : Nat) : stoppedAt none i = false := rfl

theorem execLoop_cons_stopped {player : String} {o : Int × Int × Int}
    {total : Nat} {d : Nat → Bool} {k : Option Nat} {i p : Nat}
    {cmd : List Char} {rest : List (List Char)} (hs : stoppedAt k i = true) :
    execLoop player o total d k i (cmd :: rest) p = (p, []) := by
  simp [execLoop, hs]

theorem execLoop_cons_true {player : String} {o : Int × Int × Int}
    {total : Nat} {d : Nat → Bool} {k : Option Nat} {i p : Nat}
    {cmd : List Char} {rest : List (List Char)} (hs : stoppedAt k i = false)
    (hd : d i = true) :
    execLoop player o total d k i (cmd :: rest) p =
      ((execLoop player o total d k (i + 1) rest (i + 1)).1,
       (Ctx.worker, Act.dispatch (convertCore (cleanCore cmd) o)) ::
         (Ctx.main, Act.progressEv player (i + 1) total) ::
           (execLoop player o total d k (i + 1) rest (i + 1)).2) := by
  simp [execLoop, hs, hd]

theorem execLoop_cons_false {player : String} {o : Int × Int × Int}
    {total : Nat} {d : Nat → Bool} {k : Option Nat} {i p : Nat}
    {cmd : List Char} {rest : List (List Char)} (hs : stoppedAt k i = false)
    (hd : d i = false) :
    execLoop player o total d k i (cmd :: rest) p =
      ((execLoop player o total d k (i + 1) rest p).1,
       (Ctx.worker, Act.dispatch (convertCore (cleanCore cmd) o)) ::
         (execLoop player o total d k (i + 1) rest p).2) := by
  simp [execLoop, hs, hd]

theorem execLoop_stopped (player : String) (o : Int × Int × Int) (total : Nat)
    (d : Nat → Bool) (k : Nat) :
    ∀ (rest : List (List Char)) (i p : Nat), k ≤ i →
      execLoop player o total d (some k) i rest p = (p, []) := by
  intro rest
  cases rest with
  | nil => intro i p _; rfl
  | cons cmd rest =>
    intro i p h
    exact execLoop_cons_stopped (by simp [stoppedAt]; omega)

theorem progressVals_cons (e : Ctx × Act) (tr : List (Ctx × Act)) :
    progressVals (e :: tr) =
      (match e.2 with
       | Act.progressEv _ d _ => [d]
       | _ => []) ++ progressVals tr := by
  unfold progressVals
  rw [List.filterMap_cons]
  cases e with
  | mk ctx a => cases a <;> rfl

theorem completeVals_cons (e : Ctx × Act) (tr : List (Ctx × Act)) :
    completeVals (e :: tr) =
      (match e.2 with
       | Act.completeEv _ d _ => [d]
       | _ => []) ++ completeVals tr := by
  unfold completeVals
  rw [List.filterMap_cons]
  cases e with
  | mk ctx a => cases a <;> rfl

theorem dispatchCount_cons (e : Ctx × Act) (tr : List (Ctx × Act)) :
    dispatchCount (e :: tr) =
      (if isDispatch e.2 = true then 1 else 0) + dispatchCount tr := by
  unfold dispatchCount
  rw [List.filter_cons]
  cases h : isDispatch e.2 with
  | true => simp [h, Nat.add_comm]
  | false => simp [h]

theorem execLoop_progressVals (player : String) (o : Int × Int × Int)
    (total : Nat) (d : Nat → Bool) :
    ∀ (rest : List (List Char)) (i p : Nat),
      progressVals (execLoop player o total d none i rest p).2 =
        (List.range' i rest.length).filterMap
          (fun j => if d j then some (j + 1) else none) := by
  intro rest
  induction rest with
  | nil => intro i p; rfl
  | cons cmd rest ih =>
    intro i p
    cases hd : d i with
    | true =>
      rw [execLoop_cons_true (stoppedAt_none i) hd, progressVals_cons,
        progressVals_cons, ih (i + 1) (i + 1)]
      simp [List.range'_succ, List.filterMap_cons, hd]
    | false =>
      rw [execLoop_cons_false (stoppedAt_none i) hd, progressVals_cons,
        ih (i + 1) p]
      simp [List.range'_succ, List.filterMap_cons, hd]

theorem execLoop_fst (player : String) (o : Int × Int × Int) (total : Nat)
    (d : Nat → Bool) :
    ∀ (rest : List (List Char)) (i p : Nat),
      (execLoop player o total d none i rest p).1 =
        progressFrom d i rest.length p := by
  intro rest
  induction rest with
  | nil => intro i p; rfl
  | cons cmd rest ih =>
    intro i p
    cases hd : d i with
    | true =>
      have h1 : progressFrom d i (rest.length + 1) p =
          progressFrom d (i + 1) rest.length (i + 1) := by
        simp [progressFrom, hd]
      rw [execLoop_cons_true (stoppedAt_none i) hd]
      simp only [List.length_cons]
      rw [h1]
      exact ih (i + 1) (i + 1)
    | false =>
      have h1 : progressFrom d i (rest.length + 1) p =
          progressFrom d (i + 1) rest.length p := by
        simp [progressFrom, hd]
      rw [execLoop_cons_false (stoppedAt_none i) hd]
      simp only [List.length_cons]
      rw [h1]
      exact ih (i + 1) p

theorem execLoop_completeVals (player : String) (o : Int × Int × Int)
    (total : Nat) (d : Nat → Bool) (k : Option Nat) :
    ∀ (rest : List (List Char)) (i p : Nat),
      completeVals (execLoop player o total d k i rest p).2 = [] := by
  intro rest
  induction rest with
  | nil => intro i p; rfl
  | cons cmd rest ih =>
    intro i p
    cases hs : stoppedAt k i with
    | true => rw [execLoop_cons_stopped hs]; rfl
    | false =>
      cases hd : d i with
      | true =>
        rw [execLoop_cons_true hs hd, completeVals_cons, completeVals_cons,
          ih (i + 1) (i + 1)]
        rfl
      | false =>
        rw [execLoop_cons_false hs hd, completeVals_cons, ih (i + 1) p]
        rfl

theorem execLoop_dispatchCount (player : String) (o : Int × Int × Int)
    (total : Nat) (d : Nat → Bool) (k : Nat) :
    ∀ (rest : List (List Char)) (i p : Nat),
      dispatchCount (execLoop player o total d (some k) i rest p).2 =
        min (k - i) rest.length := by
  intro rest
  induction rest with
  | nil =>
    intro i p
    rw [show execLoop player o total d (some k) i [] p = (p, []) from rfl]
    simp [dispatchCount]
  | cons cmd rest ih =>
    intro i p
    by_cases hik : k ≤ i
    · rw [execLoop_stopped player o total d k _ i p hik]
      have h0 : k - i = 0 := by omega
      simp [dispatchCount, h0]
    · have hs : stoppedAt (some k) i = false := by
        simp [stoppedAt]; omega
      cases hd : d i with
      | true =>
        rw [execLoop_cons_true hs hd, dispatchCount_cons, dispatchCount_cons,
          ih (i + 1) (i + 1)]
        simp only [isDispatch, List.length_cons]
        simp only [if_true]
        rw [show ((if (false = true) then 1 else 0) = 0) from rfl]
        omega
      | false =>
        rw [execLoop_cons_false hs hd, dispatchCount_cons, ih (i + 1) p]
        simp only [isDispatch, List.length_cons]
        simp only [if_true]
        omega

theorem execLoop_fst_cancel (player : String) (o : Int × Int × Int)
    (total : Nat) (d : Nat → Bool) (k : Nat) :
    ∀ (rest : List (List Char)) (i p : Nat),
      (execLoop player o total d (some k) i rest p).1 =
        progressFrom d i (min (k - i) rest.length) p := by
  intro rest
  induction rest with
  | nil =>
    intro i p
    rw [show execLoop player o total d (some k) i [] p = (p, []) from rfl]
    simp [progressFrom]
  | cons cmd rest ih =>
    intro i p
    by_cases hik : k ≤ i
    · rw [execLoop_stopped player o total d k _ i p hik]
      have h0 : k - i = 0 := by omega
      simp [h0, progressFrom]
    · have hs : stoppedAt (some k) i = false := by
        simp [stoppedAt]; omega
      have hmin : min (k - i) (cmd :: rest).length =
          min (k - (i + 1)) rest.length + 1 := by
        simp only [List.length_cons]
        omega
      rw [hmin]
      cases hd : d i with
      | true =>
        have h1 : progressFrom d i (min (k - (i + 1)) rest.length + 1) p =
            progressFrom d (i + 1) (min (k - (i + 1)) rest.length) (i + 1) := by
          simp [progressFrom, hd]
        rw [execLoop_cons_true hs hd, h1]
        exact ih (i + 1) (i + 1)
      | false =>
        have h1 : progressFrom d i (min (k - (i + 1)) rest.length + 1) p =
            progressFrom d (i + 1) (min (k - (i + 1)) rest.length) p := by
          simp [progressFrom, hd]
        rw [execLoop_cons_false hs hd, h1]
        exact ih (i + 1) p

theorem execLoop_tags (player : String) (o : Int × Int × Int) (total : Nat)
    (d : Nat → Bool) (k : Option Nat) :
    ∀ (rest : List (List Char)) (i p : Nat),
      ((execLoop player o total d k i rest p).2.all execTagOk) = true := by
  intro rest
  induction rest with
  | nil => intro i p; rfl
  | cons cmd rest ih =>
    intro i p
    cases hs : stoppedAt k i with
    | true => rw [execLoop_cons_stopped hs]; rfl
    | false =>
      cases hd : d i with
      | true =>
        rw [execLoop_cons_true hs hd]
        simp only [List.all_cons, ih (i + 1) (i + 1)]
        rfl
      | false =>
        rw [execLoop_cons_false hs hd]
        simp only [List.all_cons, ih (i + 1) p]
        rfl

theorem progressFrom_lastSuccess (d : Nat → Bool) :
    ∀ (m i p : Nat),
      progressFrom d i m p =
        ((List.range' i m).filter d).foldl (fun _ j => j + 1) p := by
  intro m
  induction m with
  | zero => intro i p; rfl
  | succ m ih =>
    intro i p
    cases hd : d i with
    | true =>
      have h1 : progressFrom d i (m + 1) p = progressFrom d (i + 1) m (i + 1) := by
        simp [progressFrom, hd]
      have h2 : (List.range' i (m + 1)).filter d = i :: (List.range' (i + 1) m).filter d := by
        simp [List.range'_succ, List.filter_cons, hd]
      rw [h1, h2, List.foldl_cons]
      exact ih (i + 1) (i + 1)
    | false =>
      have h1 : progressFrom d i (m + 1) p = progressFrom d (i + 1) m p := by
        simp [progressFrom, hd]
      have h2 : (List.range' i (m + 1)).filter d = (List.range' (i + 1) m).filter d := by
        simp [List.range'_succ, List.filter_cons, hd]
      rw [h1, h2]
      exact ih (i + 1) p

theorem threadRun_some_snd (cmds : List (List Char)) (player : String)
    (o : Int × Int × Int) (d : Nat → Bool) (k : Option Nat) :
    (threadRun cmds player (some o) d k).2 =
      (Ctx.worker, Act.setRunning true) ::
        (execLoop player o cmds.length d k 0 cmds 0).2 ++
          [(Ctx.main, Act.completeEv player
              (execLoop player o cmds.length d k 0 cmds 0).1 cmds.length),
           (Ctx.worker, Act.setRunning false)] := rfl

theorem threadRun_some_progress (cmds : List (List Char)) (player : String)
    (o : Int × Int × Int) (d : Nat → Bool) (k : Option Nat) :
    (threadRun cmds player (some o) d k).1.current_progress =
      (execLoop player o cmds.length d k 0 cmds 0).1 := rfl

theorem progressVals_append (a b : List (Ctx × Act)) :
    progressVals (a ++ b) = progressVals a ++ progressVals b := by
  simp [progressVals, List.filterMap_append]

theorem completeVals_append (a b : List (Ctx × Act)) :
    completeVals (a ++ b) = completeVals a ++ completeVals b := by
  simp [completeVals, List.filterMap_append]

theorem dispatchCount_append (a b : List (Ctx × Act)) :
    dispatchCount (a ++ b) = dispatchCount a + dispatchCount b := by
  simp [dispatchCount, List.filter_append]

example : ARCAIBuilder.pySplit "  fill ~ ~  stone ".toList =
    ["fill".toList, "~".toList, "~".toList, "stone".toList] := by decide
example : ARCAIBuilder.pyInt? "-42".toList = some (-42) := by decide
example : ARCAIBuilder.pyInt? "1_0".toList = some 10 := by decide
example : ARCAIBuilder.pyInt? "1__0".toList = none := by decide
example : ARCAIBuilder.intChars (-64) = "-64".toList := by decide
example : ARCAIBuilder.natChars 0 = "0".toList := by decide

-- sanitizer examples
example : ARCAIBuilder.clean_block_states "setblock ~ ~ ~ oak_door[facing=east] 0" =
    "setblock ~ ~ ~ oak_door" := by decide
example : ARCAIBuilder.clean_block_states "setblock 1 2 3 stone" =
    "setblock 2 stone" := by decide
example : ARCAIBuilder.clean_block_states "setblock -1 -2 -3 stone -1" =
    "setblock -1 -2 -3 stone -1" := by decide
example : ARCAIBuilder.clean_block_states "setblock oak 5" = "setblock oak" := by decide
example : ARCAIBuilder.clean_block_states "a 1 2 3 b" = "a 2 b" := by decide
example : ARCAIBuilder.clean_block_states "x [fac[type=t]ing=y] z" = "x z" := by decide

-- resolver examples
example : ARCAIBuilder.convert_relative_coords "fill ~-5 ~ ~-5 ~+5 ~+10 ~+5 stone" (0, 64, 0) =
    "fill -5 64 -5 5 74 5 stone" := by decide
example : ARCAIBuilder.convert_relative_coords "~ ~ ~" (1, 2, 3) = "1 2 3" := by decide
example : ARCAIBuilder.convert_relative_coords "~-4 ~ ~+10" (7, 8, 9) = "3 8 19" := by decide
example : ARCAIBuilder.convert_relative_coords "tp 5 ~ 3" (1, 2, 3) = "tp 5 2 3" := by decide
example : ARCAIBuilder.convert_relative_coords "~ stone ~" (1, 2, 3) = "1 stone 2" := by decide
example : ARCAIBuilder.convert_relative_coords "setblock ~ ~bad ~ x" (1, 2, 3) =
    "setblock ~ ~bad ~ x" := by decide
example : ∀ x y z : Int, ARCAIBuilder.convertCore "~ ~ ~".toList (x, y, z) =
    ARCAIBuilder.pyJoin [ARCAIBuilder.intChars x, ARCAIBuilder.intChars y, ARCAIBuilder.intChars z] :=
  fun _ _ _ => rfl

/-! ## The claims -/

/-- C4 (confirmed): coordinate resolution scans tokens left to right with a
slot counter; `~` resolves to `origin[c mod 3]`, `~+N`/`~-N` add/subtract
the offset, bare integers are counted but untouched, other tokens pass
through without advancing the counter.  Shown schematically over every
origin for `~ ~ ~` (gives `x y z`), `~-4 ~ ~+10` (gives `x-4 y z+10`),
`tp 5 ~ 3` (the bare `5` advances the phase so `~` lands on `y`),
`~ stone ~` (the block name does not advance the phase), and concretely
for the spec's six-coordinate `fill` phase-alignment example. -/
theorem c4_coordinate_resolution :
    (∀ x y z : Int,
      convertCore "~ ~ ~".toList (x, y, z) =
        pyJoin [intChars x, intChars y, intChars z]) ∧
    (∀ x y z : Int,
      convertCore "~-4 ~ ~+10".toList (x, y, z) =
        pyJoin [intChars (x - 4), intChars y, intChars (z + 10)]) ∧
    (∀ x y z : Int,
      convertCore "tp 5 ~ 3".toList (x, y, z) =
        pyJoin ["tp".toList, "5".toList, intChars y, "3".toList]) ∧
    (∀ x y z : Int,
      convertCore "~ stone ~".toList (x, y, z) =
        pyJoin [intChars x, "stone".toList, intChars y]) ∧
    convert_relative_coords "fill ~-5 ~ ~-5 ~+5 ~+10 ~+5 stone" (0, 64, 0) =
      "fill -5 64 -5 5 74 5 stone" :=
  ⟨fun _ _ _ => rfl, fun _ _ _ => rfl, fun _ _ _ => rfl, fun _ _ _ => rfl,
   by decide⟩

/-- C7 (confirmed): resolution is idempotent — once every `~` token has
been replaced by an absolute integer, a second pass finds no coordinate
token to rewrite (bare integers are counted but never modified), so
`resolve(resolve(cmd, origin), origin) = resolve(cmd, origin)` for every
command string and origin, including commands on which resolution
fail-softs. -/
theorem c7_resolve_idempotent (s : String) (o : Int × Int × Int) :
    convert_relative_coords (convert_relative_coords s o) o =
      convert_relative_coords s o :=
  congrArg String.mk (convertCore_idem s.toList o)

/-- C8 (confirmed): sanitising
`"setblock ~ ~ ~ oak_door[facing=east] 0"` strips the bracket group and
the trailing data value, yielding `"setblock ~ ~ ~ oak_door"`. -/
theorem c8_sanitize_example :
    clean_block_states "setblock ~ ~ ~ oak_door[facing=east] 0" =
      "setblock ~ ~ ~ oak_door" := by decide

/-- C5 counterexample: the sanitizer is not coordinate-aware and does not
match negative numbers.  `"setblock 1 2 3 stone"` has its bare absolute
coordinates `1` and `3` removed (the claim says coordinate tokens always
survive unchanged), and the trailing negative data value of
`"setblock oak_fence -1"` is kept (the claim says negative data-value
tokens are removed). -/
theorem c5_counterexample :
    clean_block_states "setblock 1 2 3 stone" = "setblock 2 stone" ∧
    clean_block_states "setblock oak_fence -1" = "setblock oak_fence -1" := by
  decide

/-- C5 (corrected): the sanitizer removes standalone unsigned digit-only
tokens only, with no protection for coordinates: a trailing digit token is
removed; interior digit tokens are removed by `\s+\d+\s+` matching whose
scan resumes after each match, so of a run of consecutive digit tokens
every other one is removed — including bare absolute coordinates; tokens
containing a minus sign are never removed or altered. -/
theorem c5_amended :
    clean_block_states "setblock oak 5" = "setblock oak" ∧
    clean_block_states "setblock 1 2 3 stone" = "setblock 2 stone" ∧
    clean_block_states "a 1 2 3 4 b" = "a 2 4 b" ∧
    clean_block_states "setblock -1 -2 -3 stone -1" =
      "setblock -1 -2 -3 stone -1" := by
  decide

/-- C3 counterexample: a run with an absent origin still writes
`is_running = True` on thread entry (before the `center_pos is None`
check), so the engine does transiently transition to the running state,
contrary to the claim's "does not transition to the running state". -/
theorem c3_counterexample :
    (Ctx.worker, Act.setRunning true) ∈
      (threadRun ["say hi".toList] "p" none (fun _ => true) none).2 := by
  decide

/-- C3 (corrected): with an absent origin the run performs zero
dispatches, raises zero progress and zero completion events and never
falls back to an ambient position — the whole trace is just the running
flag being set on thread entry and cleared in the `finally` block, and the
engine ends idle with the progress counter at 0. -/
theorem c3_missing_origin (cmds : List (List Char)) (player : String)
    (d : Nat → Bool) (k : Option Nat) :
    threadRun cmds player none d k =
      ({ is_running := false, current_progress := 0,
         total_commands := cmds.length },
       [(Ctx.worker, Act.setRunning true), (Ctx.worker, Act.setRunning false)]) :=
  rfl

/-- C2 counterexample: a run of three commands cancelled before index 1
dispatches exactly one command (the loop really exits early) and still
raises a completion event (carrying `done = 1`) — the claim says a
cancelled run raises no completion event. -/
theorem c2_counterexample :
    completeVals (threadRun ["say a".toList, "say b".toList, "say c".toList]
        "p" (some (0, 0, 0)) (fun _ => true) (some 1)).2 = [1] ∧
    dispatchCount (threadRun ["say a".toList, "say b".toList, "say c".toList]
        "p" (some (0, 0, 0)) (fun _ => true) (some 1)).2 = 1 := by
  decide

/-- C2 (corrected): when cancellation is observed before command `k` of a
longer list, the loop exits early (exactly `k` dispatches) and the engine
returns to idle, but the completion block after the loop still runs, so
exactly one completion event is raised, carrying the progress reached at
cancellation; absence of a completion event therefore does not distinguish
a cancelled run. -/
theorem c2_cancel_still_completes (cmds : List (List Char)) (player : String)
    (o : Int × Int × Int) (d : Nat → Bool) (k : Nat) (hk : k < cmds.length) :
    (threadRun cmds player (some o) d (some k)).1.is_running = false ∧
    dispatchCount (threadRun cmds player (some o) d (some k)).2 = k ∧
    completeVals (threadRun cmds player (some o) d (some k)).2 =
      [progressFrom d 0 k 0] := by
  have hmin : min (k - 0) cmds.length = k := by omega
  refine ⟨rfl, ?_, ?_⟩
  · rw [threadRun_some_snd, dispatchCount_append, dispatchCount_cons,
      execLoop_dispatchCount]
    rw [show dispatchCount [(Ctx.main, Act.completeEv player
          (execLoop player o cmds.length d (some k) 0 cmds 0).1 cmds.length),
          (Ctx.worker, Act.setRunning false)] = 0 from rfl]
    rw [show (if isDispatch (Ctx.worker, Act.setRunning true).2 = true
          then 1 else 0) = 0 from rfl]
    omega
  · rw [threadRun_some_snd, completeVals_append, completeVals_cons,
      execLoop_completeVals, execLoop_fst_cancel, hmin]
    rfl

/-- Witness for C2's corrected theorem at a concrete cancelled run. -/
theorem c2_cancel_still_completes_witness :
    (threadRun ["say a".toList, "say b".toList, "say c".toList] "p"
        (some (0, 0, 0)) (fun _ => true) (some 1)).1.is_running = false ∧
    dispatchCount (threadRun ["say a".toList, "say b".toList, "say c".toList]
        "p" (some (0, 0, 0)) (fun _ => true) (some 1)).2 = 1 ∧
    completeVals (threadRun ["say a".toList, "say b".toList, "say c".toList]
        "p" (some (0, 0, 0)) (fun _ => true) (some 1)).2 =
      [progressFrom (fun _ => true) 0 1 0] :=
  c2_cancel_still_completes _ "p" (0, 0, 0) (fun _ => true) 1 (by decide)

/-- C6 (confirmed): while the running flag is observed set, a second
`execute_commands_async` call is a silent no-op — it changes no executor
state and produces no dispatches, progress events or completion events, so
events for a back-to-back pair of calls fire only for the single run. -/
theorem c6_single_flight (s : ExecState) (cmds : List (List Char))
    (player : String) (center : Option (Int × Int × Int)) (d : Nat → Bool)
    (k : Option Nat) (h : s.is_running = true) :
    execute_commands_async cmds player center d k s = (s, []) := by
  simp [execute_commands_async, h]

/-- Witness for C6 at a concrete running state. -/
theorem c6_single_flight_witness :
    execute_commands_async ["say hi".toList] "p" (some (0, 0, 0))
        (fun _ => true) none { is_running := true, current_progress := 2,
                               total_commands := 5 } =
      ({ is_running := true, current_progress := 2, total_commands := 5 }, []) :=
  c6_single_flight _ _ _ _ _ _ rfl

/-- C9 counterexample: the execution thread calls
`server.dispatch_command` directly on the worker context — world dispatch
is not re-marshaled onto the main context, contrary to the claim. -/
theorem c9_counterexample :
    (Ctx.worker, Act.dispatch "say hi".toList) ∈
      (threadRun ["say hi".toList] "p" (some (0, 0, 0))
        (fun _ => true) none).2 := by
  decide

/-- C9 (corrected): progress and completion events are always delivered
through the main-context scheduler, the executor thread never emits a
ledger, record-store or request-tracker mutation, and the generation
worker performs its store write on the main context — but world dispatch
itself runs directly on the worker thread. -/
theorem c9_marshaling (cmds : List (List Char)) (player : String)
    (center : Option (Int × Int × Int)) (d : Nat → Bool) (k : Option Nat)
    (success : Bool) :
    ((threadRun cmds player center d k).2.all execTagOk) = true ∧
    ((generationThreadTrace player success).all genTagOk) = true := by
  constructor
  · cases center with
    | none => rfl
    | some o =>
      rw [threadRun_some_snd]
      simp only [List.all_cons, List.all_append, execLoop_tags]
      rfl
  · cases success <;> rfl

/-- C10 (confirmed): a progress event is raised exactly for each
successfully dispatched command, carrying its 1-based index; a dispatch
exception leaves the counter at its previous value and raises no event;
the final counter and the completion event carry one plus the index of the
most recently successfully dispatched command (0 if none), not the number
attempted. -/
theorem c10_progress_on_failure (cmds : List (List Char)) (player : String)
    (o : Int × Int × Int) (d : Nat → Bool) :
    progressVals (threadRun cmds player (some o) d none).2 =
      (List.range cmds.length).filterMap
        (fun i => if d i then some (i + 1) else none) ∧
    (threadRun cmds player (some o) d none).1.current_progress =
      lastSuccessDone d cmds.length ∧
    completeVals (threadRun cmds player (some o) d none).2 =
      [lastSuccessDone d cmds.length] := by
  have hfst : (execLoop player o cmds.length d none 0 cmds 0).1 =
      lastSuccessDone d cmds.length := by
    rw [execLoop_fst, progressFrom_lastSuccess]
    unfold lastSuccessDone
    rw [List.range_eq_range']
  refine ⟨?_, ?_, ?_⟩
  · rw [threadRun_some_snd, progressVals_append, progressVals_cons,
      execLoop_progressVals, List.range_eq_range']
    simp [progressVals]
  · rw [threadRun_some_progress]
    exact hfst
  · rw [threadRun_some_snd, completeVals_append, completeVals_cons,
      execLoop_completeVals, hfst]
    rfl

/-- C1 (code bug, evaluation at the failing input): on the
fresh-confirmation path, with commands and an estimated cost of 60
supplied and a `request_id` that is no longer in `request_positions`, the
orchestrator debits the requester (100 → 40) and then reports
"position information lost" leaving the ledger debited with neither a
build record created nor a compensating credit — the sibling
re-confirmation path refunds in the analogous situation. -/
theorem c1_debit_stranded :
    confirm_building "Steve" (some ["say hi".toList]) (some 60) (some 7) true
        { hasEconomy := true, balance := 100, request_positions := [],
          player_request := none, building_records := [],
          building_coordinates := [], next_building_id := 1 } =
      ({ hasEconomy := true, balance := 40, request_positions := [],
         player_request := none, building_records := [],
         building_coordinates := [], next_building_id := 1 },
       ConfirmOutcome.positionLost) := by
  decide

end ARCAIBuilder
